import Mathlib

/-!
Verification of the period-size / format adaptation layer of
`src/common/JackFormatConverter.cpp`.

The C++ classes are shallowly embedded as Lean structures and pure functions:

* `jack_nframes_t` (uint32_t) values are `Nat`, with additions and
  subtractions reduced modulo `2^32` (`wadd`, `wsub`) wherever the C code
  performs uint32 arithmetic;
* per-port buffers (the server-side `jack_port_get_buffer` area and the
  adapter-owned shadow buffer) are total functions `Nat → α` indexed by frame
  (the claims under study assume the server buffer is non-null; the NULL
  branches of `copy_from_jack` / `copy_to_jack` only skip the copy);
* per-sample format conversion (`memcpy` for the float shadow variant,
  `sample_move_*` for the integer variants) is an abstract per-sample
  function `α → α` carried by each port;
* `jack_error` is a write-only diagnostic sink and is dropped.
-/

/-- Modulus of `jack_nframes_t` (`uint32_t`) arithmetic. -/
def M32 : Nat := 4294967296

/-- uint32 addition: `a + b` reduced modulo `2^32`. -/
def wadd (a b : Nat) : Nat := (a + b) % M32

/-- uint32 subtraction: `a - b` (wrapping) modulo `2^32`. -/
def wsub (a b : Nat) : Nat := (a + (M32 - b % M32)) % M32

theorem wadd_eq {a b : Nat} (h : a + b < M32) : wadd a b = a + b := by
  unfold wadd
  exact Nat.mod_eq_of_lt h

theorem wsub_eq {a b : Nat} (hb : b ≤ a) (ha : a < M32) : wsub a b = a - b := by
  unfold wsub M32 at *
  omega

/-!  Shadow-buffer addressing (`GET_32BYTE_ALIGN_BUFFER`,
`ShadowBufferJackPortConverter::get_shadow_buffer`).  Addresses are `Nat`.  -/

/-- `GET_32BYTE_ALIGN_BUFFER(buf) = ((uintptr_t)buf & ~(32-1)) + 32`.
For any address `b` below `2^64` the mask clears the low five bits, i.e.
equals `b - b % 32`; we use that arithmetic form directly. -/
def align32 (b : Nat) : Nat := b - b % 32 + 32

/-- `ShadowBufferJackPortConverter::get_shadow_buffer(offset)`:
`aligned_buffer + offset * sample_size` (byte address). -/
def get_shadow_buffer (base ss off : Nat) : Nat := align32 base + off * ss

/-- `ShadowBufferJackPortConverter::get` / `IntegerJackPortConverter::copy_from_jack`
(no period adapter) return the address of the shadow cell at offset `0`
(assuming the server buffer is non-null, otherwise NULL is returned and
no address is produced). -/
def ShadowBufferJackPortConverter.get_addr (base ss : Nat) : Nat :=
  get_shadow_buffer base ss 0

/-!  Input period adapter: `FramesInPortConverter`.  -/

/-- State of a `FramesInPortConverter`.

`valid` is a ghost field (not present in the C++ object): the length of the
contiguous prefix of the shadow buffer that currently holds meaningful data
(silence prefill or frames copied in by `copy_from_jack`).  A copy writing
`[off, off+len)` extends the prefix only when it attaches to it
(`off ≤ valid`).  It is used to state claim C5. -/
structure InSt (α : Type) where
  /-- `shadow_frames`: valid frames beginning at offset 0. -/
  sf : Nat
  /-- `jack_offset`: position of the first unread frame of the server buffer. -/
  jo : Nat
  /-- shadow buffer contents, per frame. -/
  shadow : Nat → α
  /-- ghost: contiguous valid prefix length (see above). -/
  valid : Nat

/-- Ghost-prefix update performed alongside every shadow-buffer copy. -/
def extendValid (valid off len : Nat) : Nat :=
  if off ≤ valid then max valid (off + len) else valid

/-- `ShadowBufferJackPortConverter::copy_from_jack(shadow_off, jack_off, frames)`
(and the `IntegerJackPortConverter` override): writes
`shadow[shadow_off + i] := conv (server[jack_off + i])` for `i < frames`
(`conv` is `memcpy`-identity for the float variant, `sample_move_dS_s32` /
`sample_move_dS_s16` per sample for the integer variants;
here `conv` abstracts the per-sample conversion). -/
def copy_from_jack (conv : α → α) (server shadow : Nat → α)
    (shadow_off jack_off frames : Nat) : Nat → α :=
  fun i =>
    if shadow_off ≤ i ∧ i < shadow_off + frames then
      conv (server (jack_off + (i - shadow_off)))
    else shadow i

/-- `FramesInPortConverter::next(frames)` (which inlines
`append_from_jack` in its ready branch).  Returns the `int` result and the
updated adapter state; `-EINVAL = -22`. -/
def FramesInPortConverter.next (conv : α → α) (dst_frames : Nat)
    (server : Nat → α) (frames : Nat) (s : InSt α) : Int × InSt α :=
  if dst_frames < s.sf then (-22, s)
  else
    let jack_frames := wsub frames s.jo
    if dst_frames ≤ wadd s.sf jack_frames then
      let missing := wsub dst_frames s.sf
      (1, { sf := 0, jo := wadd s.jo missing,
            shadow := copy_from_jack conv server s.shadow s.sf s.jo missing,
            valid := extendValid s.valid s.sf missing })
    else
      (0, { sf := wadd s.sf jack_frames, jo := 0,
            shadow := copy_from_jack conv server s.shadow s.sf s.jo jack_frames,
            valid := extendValid s.valid s.sf jack_frames })

/-- `FramesInPortConverter::set`: only logs an error, touches nothing. -/
def FramesInPortConverter.set (src : Nat → α) (frames : Nat) (s : InSt α) :
    InSt α := s

/-- `FramesPortConverter::get(frames)` (used unchanged by the input adapter):
NULL when `frames` differs from `dst_frames`, otherwise the address of the
shadow buffer at offset 0. -/
def FramesPortConverter.get (base ss dst_frames frames : Nat) : Option Nat :=
  if frames ≠ dst_frames then none
  else some (get_shadow_buffer base ss 0)

/-- `FramesInPortConverter` constructor: `shadow_frames := silence_prefill`
and the first `silence_prefill` shadow frames are zeroed
(`silence_shadow`); `z` is the silence sample. -/
def FramesInPortConverter.init (z : α) (s0 : Nat → α) (silence_prefill : Nat) :
    InSt α :=
  { sf := silence_prefill, jo := 0,
    shadow := fun i => if i < silence_prefill then z else s0 i,
    valid := silence_prefill }

/-!  Output period adapter: `FramesOutPortConverter`.  -/

/-- State of a `FramesOutPortConverter`. -/
structure OutSt (α : Type) where
  /-- `shadow_frames`. -/
  sf : Nat
  /-- `shadow_offset`. -/
  so : Nat
  /-- `client_frames`. -/
  cf : Nat
  /-- shadow buffer contents, per frame. -/
  shadow : Nat → α

/-- `ShadowBufferJackPortConverter::copy_to_jack` (and the
`IntegerJackPortConverter` override): writes
`server[jack_off + j] := conv (shadow[src_base + j])` for `j < frames`,
where `src_base` is the frame offset of the `src` pointer into the shadow
buffer (call sites pass `get_shadow_buffer(shadow_offset)` with
`src_offset = 0`). -/
def copy_to_jack (conv : α → α) (shadow server : Nat → α)
    (src_base jack_off frames : Nat) : Nat → α :=
  fun j =>
    if jack_off ≤ j ∧ j < jack_off + frames then
      conv (shadow (src_base + (j - jack_off)))
    else server j

/-- `FramesOutPortConverter::next(frames)`.  Returns the `int` result, the
updated adapter state and the updated server-side buffer. -/
def FramesOutPortConverter.next (conv : α → α) (dst_frames frames : Nat)
    (server : Nat → α) (s : OutSt α) : Int × OutSt α × (Nat → α) :=
  if (if dst_frames < frames then frames else dst_frames) < s.sf then
    (-22, s, server)
  else
    let drain := frames ≤ wadd s.sf s.cf
    let s1 : OutSt α :=
      if drain then
        let sf1 := wsub (wadd s.sf s.cf) frames
        { sf := sf1, so := if sf1 = 0 then 0 else wadd s.so frames,
          cf := s.cf, shadow := s.shadow }
      else
        { sf := wadd s.sf s.cf, so := s.so, cf := s.cf, shadow := s.shadow }
    let server1 :=
      if drain then copy_to_jack conv s.shadow server s.so 0 frames else server
    let s2 : OutSt α :=
      if s1.so ≠ 0 ∧ s1.sf ≤ frames then
        { sf := s1.sf, so := 0, cf := s1.cf,
          shadow := fun i => if i < s1.sf then s1.shadow (s1.so + i)
                             else s1.shadow i }
      else s1
    (1, { s2 with cf := 0 }, server1)

/-- `FramesOutPortConverter::get(frames)`: NULL when `frames` differs from
`dst_frames`, otherwise the address of the first free shadow cell, at frame
offset `shadow_offset + shadow_frames + client_frames`. -/
def FramesOutPortConverter.get (base ss dst_frames frames : Nat)
    (s : OutSt α) : Option Nat :=
  if frames ≠ dst_frames then none
  else some (get_shadow_buffer base ss (wadd (wadd s.so s.sf) s.cf))

/-- `FramesOutPortConverter::set(src, frames)`: when `frames` differs from
`dst_frames` an error is logged but execution continues; if `src` equals the
current free-space pointer nothing happens, otherwise `frames` samples are
copied from `src` into the shadow buffer at the free-space offset.  The
counters are never modified.  `srcAddr` is the address of `src`, `srcData`
its per-frame contents. -/
def FramesOutPortConverter.set (base ss : Nat) (srcAddr : Nat)
    (srcData : Nat → α) (frames : Nat) (s : OutSt α) : OutSt α :=
  let off := wadd (wadd s.so s.sf) s.cf
  if srcAddr = get_shadow_buffer base ss off then s
  else
    { s with shadow := fun i => if off ≤ i ∧ i < off + frames
                                then srcData (i - off) else s.shadow i }

/-- `FramesOutPortConverter::update_client_frames`: `client_frames += dst_frames`. -/
def FramesOutPortConverter.update_client_frames (dst_frames : Nat)
    (s : OutSt α) : OutSt α :=
  { s with cf := wadd s.cf dst_frames }

/-!  The aggregator: `JackBufferConverter`.  -/

/-- An input port registered with the aggregator: its per-sample conversion
(`from_jack` direction), its server-side buffer for the current cycle, and
its adapter state. -/
structure InPort (α : Type) where
  from_jack : α → α
  server : Nat → α
  st : InSt α

/-- An output port registered with the aggregator. -/
structure OutPort (α : Type) where
  to_jack : α → α
  server : Nat → α
  st : OutSt α

/-- One `port->next(frames)` call on an input port. -/
def inStep (dst_frames frames : Nat) (p : InPort α) : Int × InPort α :=
  let r := FramesInPortConverter.next p.from_jack dst_frames p.server frames p.st
  (r.1, { p with st := r.2 })

/-- One `port->next(frames)` call on an output port (the updated server
buffer is stored back into the port). -/
def outStep (dst_frames frames : Nat) (p : OutPort α) : Int × OutPort α :=
  let r := FramesOutPortConverter.next p.to_jack dst_frames frames p.server p.st
  (r.1, { p with st := r.2.1, server := r.2.2 })

/-- The `for` loop inside `JackBufferConverter::next`: advance the ports left
to right, keep the minimum result (initialised to 1), return immediately on
a negative result (leaving later ports untouched). -/
def nextAll (f : σ → Int × σ) : List σ → Int × List σ
  | [] => (1, [])
  | p :: ps =>
    let r := f p
    if r.1 < 0 then (r.1, r.2 :: ps)
    else
      let rr := nextAll f ps
      (if rr.1 < 0 then rr.1 else min r.1 rr.1, r.2 :: rr.2)

/-- `JackBufferConverter::next(frames, ports)`: `-1` on an empty port list,
otherwise the fold above. -/
def JackBufferConverter.next (f : σ → Int × σ) (ports : List σ) :
    Int × List σ :=
  if ports.isEmpty then (-1, ports) else nextAll f ports

/-- One client-callback invocation recorded while running the process
callback: the aggregate input `next` result that gated it, the frame count
passed to the callback, and the input adapter states at that moment. -/
structure CallbackEvent (α : Type) where
  ret : Int
  nframes : Nat
  states : List (InSt α)

/-- Result of one run of the registered process callback
(`JackBufferConverter::converter`). -/
structure ConvResult (α : Type) where
  /-- the `int` returned to the server. -/
  ret : Int
  ins : List (InPort α)
  outs : List (OutPort α)
  /-- number of client-callback invocations. -/
  count : Nat
  events : List (CallbackEvent α)

/-- The `while` loop of `JackBufferConverter::converter` followed by the
output drain, with an explicit fuel bound on the loop (the C loop is
unbounded; `converter_spec` below shows the fuel is never exhausted in the
situations the claims quantify over, so the result is `some`). -/
def convLoop (cb : Nat → Int) (dst_frames frames : Nat) :
    Nat → List (InPort α) → List (OutPort α) → Option (ConvResult α)
  | 0, _, _ => none
  | fuel + 1, ins, outs =>
    let r := JackBufferConverter.next (inStep dst_frames frames) ins
    if 1 ≤ r.1 then
      let e : CallbackEvent α := ⟨r.1, dst_frames, r.2.map (fun p => p.st)⟩
      if cb dst_frames < 0 then
        some ⟨cb dst_frames, r.2, outs, 1, [e]⟩
      else
        match convLoop cb dst_frames frames fuel r.2
            (outs.map (fun p =>
              { p with st := FramesOutPortConverter.update_client_frames
                               dst_frames p.st })) with
        | none => none
        | some res => some ⟨res.ret, res.ins, res.outs, res.count + 1,
                            e :: res.events⟩
    else
      let od := JackBufferConverter.next (outStep dst_frames frames) outs
      some ⟨if od.1 < 0 then od.1 else r.1, r.2, od.2, 0, []⟩

/-- `JackBufferConverter::converter(frames, arg)`: one server process
callback.  `frames + 2` fuel always suffices for the claims' situations. -/
def JackBufferConverter.converter (cb : Nat → Int) (dst_frames frames : Nat)
    (ins : List (InPort α)) (outs : List (OutPort α)) :
    Option (ConvResult α) :=
  convLoop cb dst_frames frames (frames + 2) ins outs

/-- Final state and total client-callback count of a run of consecutive
server process callbacks. -/
structure RunResult (α : Type) where
  ins : List (InPort α)
  outs : List (OutPort α)
  count : Nat

/-- Run `T` consecutive server process callbacks of `frames` frames each. -/
def runTicks (cb : Nat → Int) (dst_frames frames : Nat) :
    Nat → List (InPort α) → List (OutPort α) → Option (RunResult α)
  | 0, ins, outs => some ⟨ins, outs, 0⟩
  | T + 1, ins, outs =>
    match JackBufferConverter.converter cb dst_frames frames ins outs with
    | none => none
    | some res =>
      match runTicks cb dst_frames frames T res.ins res.outs with
      | none => none
      | some rr => some ⟨rr.ins, rr.outs, res.count + rr.count⟩

/-- `JackBufferConverter::calculate_silence_prefill(client_per_size,
server_per_size)`. -/
def calculate_silence_prefill (client_per_size server_per_size : Nat) : Nat :=
  if client_per_size < server_per_size then
    if server_per_size % client_per_size = 0 then 0 else client_per_size
  else if server_per_size < client_per_size then
    if client_per_size % server_per_size = 0 then
      wsub client_per_size server_per_size
    else client_per_size
  else 0

/-- C4: the silence prefill computed at aggregator construction, for client
period `C = dst_frames` and server period `S`, is `0` when `S = C`; `0` when
`S > C` and `S % C = 0`; `C` when `S > C` and `S % C ≠ 0`; `C - S` when
`S < C` and `C % S = 0`; and `C` when `S < C` and `C % S ≠ 0`. -/
theorem C4_silence_prefill (C S : Nat) (hC : 0 < C) (hS : 0 < S)
    (hM : C < M32) :
    (S = C → calculate_silence_prefill C S = 0) ∧
    (C < S → S % C = 0 → calculate_silence_prefill C S = 0) ∧
    (C < S → S % C ≠ 0 → calculate_silence_prefill C S = C) ∧
    (S < C → C % S = 0 → calculate_silence_prefill C S = C - S) ∧
    (S < C → C % S ≠ 0 → calculate_silence_prefill C S = C) := by
  unfold calculate_silence_prefill
  refine ⟨?_, ?_, ?_, ?_, ?_⟩
  · intro h
    rw [if_neg (by omega), if_neg (by omega)]
  · intro h hmod
    rw [if_pos h, if_pos hmod]
  · intro h hmod
    rw [if_pos h, if_neg hmod]
  · intro h hmod
    rw [if_neg (by omega), if_pos h, if_pos hmod, wsub_eq (by omega) hM]
  · intro h hmod
    rw [if_neg (by omega), if_pos h, if_neg hmod]

/-- Witness for C4 at concrete periods (spec scenario: `S = 100, C = 64`
gives prefill `64`; `S = 32, C = 128` gives `96`). -/
theorem C4_silence_prefill_witness :
    (0 < 64 ∧ calculate_silence_prefill 64 100 = 64) ∧
    calculate_silence_prefill 128 32 = 128 - 32 :=
  ⟨⟨by decide,
    (C4_silence_prefill 64 100 (by decide) (by decide) (by decide)).2.2.1
      (by decide) (by decide)⟩,
   (C4_silence_prefill 128 32 (by decide) (by decide) (by decide)).2.2.2.1
      (by decide) (by decide)⟩

/-- C2: behaviour of a single `FramesInPortConverter::next(frames)` call.
With `shadow_frames ≤ dst_frames`: if `shadow_frames + (frames - jack_offset)
≥ dst_frames` it copies exactly `need = dst_frames - shadow_frames` frames
from the server buffer at `jack_offset` into the shadow at offset
`shadow_frames`, adds `need` to `jack_offset`, zeroes `shadow_frames` and
returns `1` (ready); otherwise it copies the remaining
`frames - jack_offset` frames into the shadow at offset `shadow_frames`,
adds them to `shadow_frames`, zeroes `jack_offset` and returns `0`.  With
`shadow_frames > dst_frames` it returns `-EINVAL` without copying. -/
theorem C2_input_next (conv : α → α) (server : Nat → α) (C frames : Nat)
    (s : InSt α) (hjo : s.jo ≤ frames) (hM : C + frames < M32) :
    (s.sf ≤ C → C ≤ s.sf + (frames - s.jo) →
      (FramesInPortConverter.next conv C server frames s).1 = 1 ∧
      (FramesInPortConverter.next conv C server frames s).2.sf = 0 ∧
      (FramesInPortConverter.next conv C server frames s).2.jo
        = s.jo + (C - s.sf) ∧
      (∀ i, i < C - s.sf →
        (FramesInPortConverter.next conv C server frames s).2.shadow (s.sf + i)
          = conv (server (s.jo + i))) ∧
      (∀ i, i < s.sf ∨ C ≤ i →
        (FramesInPortConverter.next conv C server frames s).2.shadow i
          = s.shadow i)) ∧
    (s.sf ≤ C → s.sf + (frames - s.jo) < C →
      (FramesInPortConverter.next conv C server frames s).1 = 0 ∧
      (FramesInPortConverter.next conv C server frames s).2.sf
        = s.sf + (frames - s.jo) ∧
      (FramesInPortConverter.next conv C server frames s).2.jo = 0 ∧
      (∀ i, i < frames - s.jo →
        (FramesInPortConverter.next conv C server frames s).2.shadow (s.sf + i)
          = conv (server (s.jo + i))) ∧
      (∀ i, i < s.sf ∨ s.sf + (frames - s.jo) ≤ i →
        (FramesInPortConverter.next conv C server frames s).2.shadow i
          = s.shadow i)) ∧
    (C < s.sf →
      FramesInPortConverter.next conv C server frames s = (-22, s)) := by
  have hfr : frames < M32 := by omega
  refine ⟨?_, ?_, ?_⟩
  · intro h1 h2
    have hjf : wsub frames s.jo = frames - s.jo := wsub_eq hjo hfr
    have hmiss : wsub C s.sf = C - s.sf := wsub_eq h1 (by omega)
    simp only [FramesInPortConverter.next, hjf, hmiss,
      wadd_eq (show s.sf + (frames - s.jo) < M32 by omega)]
    rw [if_neg (by omega), if_pos (by omega)]
    refine ⟨rfl, rfl, wadd_eq (by omega), ?_, ?_⟩
    · intro i hi
      simp only [copy_from_jack]
      rw [if_pos (by omega)]
      congr 2
      omega
    · intro i hi
      simp only [copy_from_jack]
      rw [if_neg (by omega)]
  · intro h1 h2
    have hjf : wsub frames s.jo = frames - s.jo := wsub_eq hjo hfr
    simp only [FramesInPortConverter.next, hjf,
      wadd_eq (show s.sf + (frames - s.jo) < M32 by omega)]
    rw [if_neg (by omega), if_neg (by omega)]
    refine ⟨rfl, rfl, rfl, ?_, ?_⟩
    · intro i hi
      simp only [copy_from_jack]
      rw [if_pos (by omega)]
      congr 2
      omega
    · intro i hi
      simp only [copy_from_jack]
      rw [if_neg (by omega)]
  · intro h1
    simp only [FramesInPortConverter.next]
    rw [if_pos h1]

/-- Witness for C2: a ready call with `C = 4`, `frames = 6`,
`shadow_frames = 2`, `jack_offset = 1` copies 2 frames, moves
`jack_offset` to 3 and returns 1; the shadow cell at index 2 receives the
server sample at index 1. -/
theorem C2_input_next_witness :
    ((2 : Nat) ≤ 4 ∧ (4 : Nat) ≤ 2 + (6 - 1)) ∧
    (FramesInPortConverter.next (fun x => x) 4 (fun i => (i : Int)) 6
        ⟨2, 1, fun _ => 0, 2⟩).1 = 1 ∧
    (FramesInPortConverter.next (fun x => x) 4 (fun i => (i : Int)) 6
        ⟨2, 1, fun _ => 0, 2⟩).2.sf = 0 ∧
    (FramesInPortConverter.next (fun x => x) 4 (fun i => (i : Int)) 6
        ⟨2, 1, fun _ => 0, 2⟩).2.jo = 3 ∧
    (FramesInPortConverter.next (fun x => x) 4 (fun i => (i : Int)) 6
        ⟨2, 1, fun _ => 0, 2⟩).2.shadow 2 = 1 := by
  have h := C2_input_next (fun x => (x : Int)) (fun i => (i : Int)) 4 6
    ⟨2, 1, fun _ => 0, 2⟩ (by decide) (by decide)
  have h1 := h.1 (by decide) (by decide)
  refine ⟨⟨by decide, by decide⟩, h1.1, h1.2.1, h1.2.2.1, ?_⟩
  have := h1.2.2.2.1 0 (by decide)
  simpa using this


/-- C3: behaviour of a single `FramesOutPortConverter::next(frames)` call
with `shadow_frames ≤ max(frames, dst_frames)`.  If
`shadow_frames + client_frames ≥ frames` it copies `frames` frames from the
shadow at `shadow_offset` to the server buffer, sets `shadow_frames` to
`shadow_frames + client_frames - frames`, adds `frames` to `shadow_offset`
and resets `shadow_offset` to 0 when `shadow_frames` reaches 0; otherwise
it adds `client_frames` to `shadow_frames` and copies nothing.  Afterwards,
if `shadow_offset > 0` and `shadow_frames ≤ frames`, the remaining
`shadow_frames` frames are moved to shadow offset 0 and `shadow_offset` is
reset to 0.  In every case `client_frames` is reset to 0. -/
theorem C3_output_next (conv : α → α) (server : Nat → α) (C frames : Nat)
    (s : OutSt α) (hpre : s.sf ≤ max frames C)
    (hM : s.sf + s.cf + s.so + frames + C < M32) :
    (FramesOutPortConverter.next conv C frames server s).1 = 1 ∧
    (FramesOutPortConverter.next conv C frames server s).2.1.cf = 0 ∧
    (frames ≤ s.sf + s.cf →
      (∀ j, j < frames →
        (FramesOutPortConverter.next conv C frames server s).2.2 j
          = conv (s.shadow (s.so + j))) ∧
      (∀ j, frames ≤ j →
        (FramesOutPortConverter.next conv C frames server s).2.2 j
          = server j) ∧
      (FramesOutPortConverter.next conv C frames server s).2.1.sf
        = s.sf + s.cf - frames ∧
      (s.sf + s.cf - frames = 0 →
        (FramesOutPortConverter.next conv C frames server s).2.1.so = 0 ∧
        ∀ i, (FramesOutPortConverter.next conv C frames server s).2.1.shadow i
          = s.shadow i) ∧
      (0 < s.sf + s.cf - frames → s.sf + s.cf - frames ≤ frames →
        (FramesOutPortConverter.next conv C frames server s).2.1.so = 0 ∧
        (0 < s.so + frames →
          (∀ i, i < s.sf + s.cf - frames →
            (FramesOutPortConverter.next conv C frames server s).2.1.shadow i
              = s.shadow (s.so + frames + i)) ∧
          (∀ i, s.sf + s.cf - frames ≤ i →
            (FramesOutPortConverter.next conv C frames server s).2.1.shadow i
              = s.shadow i))) ∧
      (frames < s.sf + s.cf - frames →
        (FramesOutPortConverter.next conv C frames server s).2.1.so
          = s.so + frames ∧
        ∀ i, (FramesOutPortConverter.next conv C frames server s).2.1.shadow i
          = s.shadow i)) ∧
    (s.sf + s.cf < frames →
      (∀ j, (FramesOutPortConverter.next conv C frames server s).2.2 j
        = server j) ∧
      (FramesOutPortConverter.next conv C frames server s).2.1.sf
        = s.sf + s.cf ∧
      (s.so = 0 →
        (FramesOutPortConverter.next conv C frames server s).2.1.so = 0 ∧
        ∀ i, (FramesOutPortConverter.next conv C frames server s).2.1.shadow i
          = s.shadow i) ∧
      (s.so ≠ 0 →
        (FramesOutPortConverter.next conv C frames server s).2.1.so = 0 ∧
        (∀ i, i < s.sf + s.cf →
          (FramesOutPortConverter.next conv C frames server s).2.1.shadow i
            = s.shadow (s.so + i)) ∧
        (∀ i, s.sf + s.cf ≤ i →
          (FramesOutPortConverter.next conv C frames server s).2.1.shadow i
            = s.shadow i))) := by
  have hguard : ¬ ((if C < frames then frames else C) < s.sf) := by
    split <;> omega
  have h1 : wadd s.sf s.cf = s.sf + s.cf := wadd_eq (by omega)
  have h2 : wadd s.so frames = s.so + frames := wadd_eq (by omega)
  by_cases hd : frames ≤ s.sf + s.cf
  · -- drain branch
    have h3 : wsub (s.sf + s.cf) frames = s.sf + s.cf - frames :=
      wsub_eq hd (by omega)
    by_cases hz : s.sf + s.cf - frames = 0
    · have hnext : FramesOutPortConverter.next conv C frames server s =
          (1, ⟨s.sf + s.cf - frames, 0, 0, s.shadow⟩,
           copy_to_jack conv s.shadow server s.so 0 frames) := by
        simp only [FramesOutPortConverter.next, if_neg hguard, h1, h2, h3,
          if_pos hd, if_pos hz]
        simp
      rw [hnext]
      refine ⟨rfl, rfl, ?_, ?_⟩
      · intro _
        refine ⟨?_, ?_, rfl, ?_, ?_, ?_⟩
        · intro j hj
          simp only [copy_to_jack]
          rw [if_pos (by omega)]
          simp
        · intro j hj
          simp only [copy_to_jack]
          rw [if_neg (by omega)]
        · intro _
          exact ⟨rfl, fun i => rfl⟩
        · intro h0 _
          omega
        · intro h0
          omega
      · intro h0
        omega
    · by_cases hc : s.sf + s.cf - frames ≤ frames
      · by_cases hso : s.so + frames = 0
        · -- degenerate: frames = 0 and shadow_offset = 0; no compaction
          have hnext : FramesOutPortConverter.next conv C frames server s =
              (1, ⟨s.sf + s.cf - frames, s.so + frames, 0, s.shadow⟩,
               copy_to_jack conv s.shadow server s.so 0 frames) := by
            simp only [FramesOutPortConverter.next, if_neg hguard, h1, h2, h3,
              if_pos hd, if_neg hz]
            simp [hso]
          rw [hnext]
          refine ⟨rfl, rfl, ?_, ?_⟩
          · intro _
            refine ⟨?_, ?_, rfl, ?_, ?_, ?_⟩
            · intro j hj
              omega
            · intro j hj
              simp only [copy_to_jack]
              rw [if_neg (by omega)]
            · intro h0
              omega
            · intro _ _
              exact ⟨by omega, fun hpos => by omega⟩
            · intro hlt
              omega
          · intro h0
            omega
        · -- compaction applies
          have hnext : FramesOutPortConverter.next conv C frames server s =
              (1, ⟨s.sf + s.cf - frames, 0, 0,
                   fun i => if i < s.sf + s.cf - frames
                            then s.shadow (s.so + frames + i)
                            else s.shadow i⟩,
               copy_to_jack conv s.shadow server s.so 0 frames) := by
            simp only [FramesOutPortConverter.next, if_neg hguard, h1, h2, h3,
              if_pos hd, if_neg hz]
            simp [hso, hc]
          rw [hnext]
          refine ⟨rfl, rfl, ?_, ?_⟩
          · intro _
            refine ⟨?_, ?_, rfl, ?_, ?_, ?_⟩
            · intro j hj
              simp only [copy_to_jack]
              rw [if_pos (by omega)]
              simp
            · intro j hj
              simp only [copy_to_jack]
              rw [if_neg (by omega)]
            · intro h0
              omega
            · intro _ _
              refine ⟨rfl, fun _ => ⟨?_, ?_⟩⟩
              · intro i hi
                simp only []
                rw [if_pos hi]
              · intro i hi
                simp only []
                rw [if_neg (by omega)]
            · intro hlt
              omega
          · intro h0
            omega
      · -- shadow_frames stays above frames: no compaction
        have hnext : FramesOutPortConverter.next conv C frames server s =
            (1, ⟨s.sf + s.cf - frames, s.so + frames, 0, s.shadow⟩,
             copy_to_jack conv s.shadow server s.so 0 frames) := by
          simp only [FramesOutPortConverter.next, if_neg hguard, h1, h2, h3,
            if_pos hd, if_neg hz]
          simp [hc]
        rw [hnext]
        refine ⟨rfl, rfl, ?_, ?_⟩
        · intro _
          refine ⟨?_, ?_, rfl, ?_, ?_, ?_⟩
          · intro j hj
            simp only [copy_to_jack]
            rw [if_pos (by omega)]
            simp
          · intro j hj
            simp only [copy_to_jack]
            rw [if_neg (by omega)]
          · intro h0
            omega
          · intro _ h0
            omega
          · intro _
            exact ⟨rfl, fun i => rfl⟩
        · intro h0
          omega
  · -- no-drain branch
    by_cases hso : s.so = 0
    · have hnext : FramesOutPortConverter.next conv C frames server s =
          (1, ⟨s.sf + s.cf, s.so, 0, s.shadow⟩, server) := by
        simp only [FramesOutPortConverter.next, if_neg hguard, h1, h2,
          if_neg hd]
        simp [hso]
      rw [hnext]
      refine ⟨rfl, rfl, ?_, ?_⟩
      · intro h0
        omega
      · intro _
        refine ⟨fun j => rfl, rfl, ?_, ?_⟩
        · intro _
          exact ⟨hso, fun i => rfl⟩
        · intro h0
          exact absurd hso h0
    · have hnext : FramesOutPortConverter.next conv C frames server s =
          (1, ⟨s.sf + s.cf, 0, 0,
               fun i => if i < s.sf + s.cf then s.shadow (s.so + i)
                        else s.shadow i⟩, server) := by
        have hle : s.sf + s.cf ≤ frames := by omega
        simp only [FramesOutPortConverter.next, if_neg hguard, h1, h2,
          if_neg hd]
        simp [hso, hle]
      rw [hnext]
      refine ⟨rfl, rfl, ?_, ?_⟩
      · intro h0
        omega
      · intro _
        refine ⟨fun j => rfl, rfl, ?_, ?_⟩
        · intro h0
          exact absurd h0 hso
        · intro _
          refine ⟨rfl, ?_, ?_⟩
          · intro i hi
            simp only []
            rw [if_pos hi]
          · intro i hi
            simp only []
            rw [if_neg (by omega)]

/-- Witness for C3: with `dst_frames = 64`, `frames = 100` and output state
`shadow_frames = 0, shadow_offset = 0, client_frames = 128`, the drain
copies 100 frames to the server, leaves 28 frames, and the compaction moves
them to offset 0 (the former frame 100 of the shadow becomes frame 0). -/
theorem C3_output_next_witness :
    ((100 : Nat) ≤ 0 + 128) ∧
    (FramesOutPortConverter.next (fun x => x) 64 100 (fun _ => (0 : Int))
        ⟨0, 0, 128, fun i => (i : Int)⟩).1 = 1 ∧
    (FramesOutPortConverter.next (fun x => x) 64 100 (fun _ => (0 : Int))
        ⟨0, 0, 128, fun i => (i : Int)⟩).2.1.sf = 28 ∧
    (FramesOutPortConverter.next (fun x => x) 64 100 (fun _ => (0 : Int))
        ⟨0, 0, 128, fun i => (i : Int)⟩).2.1.so = 0 ∧
    (FramesOutPortConverter.next (fun x => x) 64 100 (fun _ => (0 : Int))
        ⟨0, 0, 128, fun i => (i : Int)⟩).2.1.cf = 0 ∧
    (FramesOutPortConverter.next (fun x => x) 64 100 (fun _ => (0 : Int))
        ⟨0, 0, 128, fun i => (i : Int)⟩).2.1.shadow 0 = 100 ∧
    (FramesOutPortConverter.next (fun x => x) 64 100 (fun _ => (0 : Int))
        ⟨0, 0, 128, fun i => (i : Int)⟩).2.2 5 = 5 := by
  have h := C3_output_next (fun x => (x : Int)) (fun _ => (0 : Int)) 64 100
    ⟨0, 0, 128, fun i => (i : Int)⟩ (by decide) (by decide)
  have hd := h.2.2.1 (by decide)
  have hmv := (hd.2.2.2.2.1 (by decide) (by decide)).2 (by decide)
  refine ⟨by decide, h.1, by simpa using hd.2.2.1,
    (hd.2.2.2.2.1 (by decide) (by decide)).1, h.2.1, ?_, ?_⟩
  · simpa using hmv.1 0 (by decide)
  · simpa using hd.1 5 (by decide)

/-- Counterexample to C8 as stated.  The claim says `set(buf, frames)` with
`frames ≠ dst_frames` on a period adapter leaves the shadow buffer unchanged
(a no-op).  On an output period adapter (`dst_frames = 2`, initial state all
zero, shadow all-zero), `set` with `frames = 1` and a source pointer that
differs from the free-space pointer still copies: shadow frame 0 becomes the
source sample `7` instead of staying `0`. -/
theorem C8_counterexample :
    (1 : Nat) ≠ 2 ∧
    (FramesOutPortConverter.set 0 4 999 (fun _ => (7 : Int)) 1
        ⟨0, 0, 0, fun _ => 0⟩).shadow 0 = 7 ∧
    ((⟨0, 0, 0, fun _ => 0⟩ : OutSt Int)).shadow 0 = 0 := by
  exact ⟨by decide, by decide, rfl⟩

/-- C8 (amended): for every period adapter and `frames ≠ dst_frames`, `get`
logs and returns null, and `set` on an input adapter is always a logged
no-op; but `set(buf, frames)` on an output adapter logs the mismatch and
still executes: the counters stay unchanged, nothing happens when `buf`
equals the free-space pointer, and otherwise `frames` samples are copied
from `buf` into the shadow at frame offset
`shadow_offset + shadow_frames + client_frames`. -/
theorem C8_api_misuse_amended (base ss C frames : Nat) (sIn : InSt α)
    (sOut : OutSt α) (srcAddr : Nat) (srcData src : Nat → α)
    (hf : frames ≠ C) :
    FramesPortConverter.get base ss C frames = none ∧
    FramesOutPortConverter.get base ss C frames sOut = none ∧
    FramesInPortConverter.set src frames sIn = sIn ∧
    ((FramesOutPortConverter.set base ss srcAddr srcData frames sOut).sf
        = sOut.sf ∧
     (FramesOutPortConverter.set base ss srcAddr srcData frames sOut).so
        = sOut.so ∧
     (FramesOutPortConverter.set base ss srcAddr srcData frames sOut).cf
        = sOut.cf) ∧
    (srcAddr = get_shadow_buffer base ss (wadd (wadd sOut.so sOut.sf) sOut.cf) →
      FramesOutPortConverter.set base ss srcAddr srcData frames sOut = sOut) ∧
    (srcAddr ≠ get_shadow_buffer base ss (wadd (wadd sOut.so sOut.sf) sOut.cf) →
      (∀ i, wadd (wadd sOut.so sOut.sf) sOut.cf ≤ i →
            i < wadd (wadd sOut.so sOut.sf) sOut.cf + frames →
        (FramesOutPortConverter.set base ss srcAddr srcData frames sOut).shadow i
          = srcData (i - wadd (wadd sOut.so sOut.sf) sOut.cf)) ∧
      (∀ i, i < wadd (wadd sOut.so sOut.sf) sOut.cf ∨
            wadd (wadd sOut.so sOut.sf) sOut.cf + frames ≤ i →
        (FramesOutPortConverter.set base ss srcAddr srcData frames sOut).shadow i
          = sOut.shadow i)) := by
  refine ⟨?_, ?_, rfl, ?_, ?_, ?_⟩
  · simp [FramesPortConverter.get, hf]
  · simp [FramesOutPortConverter.get, hf]
  · simp only [FramesOutPortConverter.set]
    split
    · exact ⟨rfl, rfl, rfl⟩
    · exact ⟨rfl, rfl, rfl⟩
  · intro hptr
    simp [FramesOutPortConverter.set, hptr]
  · intro hptr
    constructor
    · intro i h1 h2
      simp only [FramesOutPortConverter.set]
      rw [if_neg hptr]
      simp only []
      rw [if_pos ⟨h1, h2⟩]
    · intro i hi
      simp only [FramesOutPortConverter.set]
      rw [if_neg hptr]
      simp only []
      rw [if_neg (by omega)]

/-- Witness for the amended C8 at `frames = 1 ≠ 2 = dst_frames`: `get`
returns null on both adapters, input `set` is the identity, and output `set`
writes the source sample at the free-space offset (here 0, so the shadow
cell 0 becomes 7) while the counters stay 0. -/
theorem C8_api_misuse_amended_witness :
    (1 : Nat) ≠ 2 ∧
    FramesPortConverter.get 0 4 2 1 = none ∧
    FramesOutPortConverter.get 0 4 2 1 (⟨0, 0, 0, fun _ => (0 : Int)⟩) = none ∧
    FramesInPortConverter.set (fun _ => (5 : Int)) 1 ⟨0, 0, fun _ => 0, 0⟩
      = ⟨0, 0, fun _ => (0 : Int), 0⟩ ∧
    (FramesOutPortConverter.set 0 4 999 (fun _ => (7 : Int)) 1
        ⟨0, 0, 0, fun _ => 0⟩).cf = 0 ∧
    (FramesOutPortConverter.set 0 4 999 (fun _ => (7 : Int)) 1
        ⟨0, 0, 0, fun _ => 0⟩).shadow 0 = 7 := by
  have h := C8_api_misuse_amended (α := Int) 0 4 2 1 ⟨0, 0, fun _ => 0, 0⟩
    ⟨0, 0, 0, fun _ => 0⟩ 999 (fun _ => (7 : Int)) (fun _ => (5 : Int))
    (by decide)
  refine ⟨by decide, h.1, h.2.1, h.2.2.1, h.2.2.2.1.2.2, ?_⟩
  have := (h.2.2.2.2.2 (by decide)).1 0 (by decide) (by decide)
  simpa using this

/-- C7 (amended): the shadow base produced by `GET_32BYTE_ALIGN_BUFFER` is
32-byte aligned, so `get` on a Shadow or Integer converter without a period
adapter and `get` on an input period adapter return 32-byte aligned
pointers; `get` on an output period adapter returns the aligned base plus
`(shadow_offset + shadow_frames + client_frames) * sample_size` bytes,
which is 32-byte aligned exactly when that byte offset is a multiple
of 32. -/
theorem C7_alignment_amended (base ss C frames : Nat) (s : OutSt α)
    (hf : frames = C) :
    ShadowBufferJackPortConverter.get_addr base ss % 32 = 0 ∧
    (∀ a ∈ FramesPortConverter.get base ss C frames, a % 32 = 0) ∧
    (∀ a ∈ FramesOutPortConverter.get base ss C frames s,
       a = align32 base + wadd (wadd s.so s.sf) s.cf * ss ∧
       (a % 32 = 0 ↔ wadd (wadd s.so s.sf) s.cf * ss % 32 = 0)) := by
  have hb : align32 base % 32 = 0 := by
    unfold align32
    omega
  refine ⟨?_, ?_, ?_⟩
  · simpa [ShadowBufferJackPortConverter.get_addr, get_shadow_buffer] using hb
  · intro a ha
    simp only [FramesPortConverter.get, hf] at ha
    rw [if_neg (by simp)] at ha
    simp only [Option.mem_def, Option.some_inj] at ha
    subst ha
    simpa [get_shadow_buffer] using hb
  · intro a ha
    simp only [FramesOutPortConverter.get, hf] at ha
    rw [if_neg (by simp)] at ha
    simp only [Option.mem_def, Option.some_inj] at ha
    subst ha
    refine ⟨rfl, ?_⟩
    unfold get_shadow_buffer align32 at *
    omega

/-- Witness for the amended C7: on an input adapter with base address 11 and
`dst_frames = 64` the returned pointer is the aligned base 32; on an output
adapter in state `shadow_frames = 8` (sample size 4) the pointer is
32 + 8*4 = 64, aligned because the byte offset 32 is a multiple of 32. -/
theorem C7_alignment_amended_witness :
    (64 : Nat) = 64 ∧
    FramesPortConverter.get 11 4 64 64 = some 32 ∧
    (32 : Nat) % 32 = 0 ∧
    FramesOutPortConverter.get 11 4 64 64 (⟨8, 0, 0, fun _ => (0 : Int)⟩)
      = some 64 ∧
    (64 : Nat) % 32 = 0 := by
  have h := C7_alignment_amended (α := Int) 11 4 64 64
    ⟨8, 0, 0, fun _ => 0⟩ rfl
  refine ⟨rfl, by decide, h.2.1 32 (by decide), by decide, ?_⟩
  exact (h.2.2 64 (by decide)).2.mpr (by decide)

/-- Counterexample to C7 as stated.  One input and one output adapter with
`dst_frames = 64`, silence prefill 64, server period 100, sample size 4
(int32 or float): after one server process callback the output adapter is
left in the reachable state `shadow_frames = 28, shadow_offset = 0,
client_frames = 0`, and during the next callback `get(64)` returns the
address `align32(0) + 28 * 4 = 144`, which is not 32-byte aligned
(`144 % 32 = 16`). -/
theorem C7_counterexample :
    (Option.map
      (fun rr : RunResult Int =>
        rr.outs.map (fun p => FramesOutPortConverter.get 0 4 64 64 p.st))
      (runTicks (fun _ => 0) 64 100 1
        [⟨fun x => x, fun _ => 0, ⟨64, 0, fun _ => 0, 64⟩⟩]
        [⟨fun x => x, fun _ => 0, ⟨0, 0, 0, fun _ => 0⟩⟩])
      = some [some 144]) ∧ (144 : Nat) % 32 = 16 := by
  exact ⟨by decide, by decide⟩

/-- Ready step of the input adapter: with `shadow_frames ≤ dst_frames`, the
offsets in range, and `shadow_frames + (frames - jack_offset) ≥ dst_frames`,
`next` returns 1, zeroes `shadow_frames`, advances `jack_offset` by the
copied amount, and (ghost) the valid prefix becomes exactly `dst_frames`. -/
theorem in_next_ready (conv : α → α) (server : Nat → α) (C frames : Nat)
    (s : InSt α) (ha : s.sf ≤ C) (hb : s.jo ≤ frames) (hM : C + frames < M32)
    (hv1 : s.sf ≤ s.valid) (hv2 : s.valid ≤ C)
    (hready : C ≤ s.sf + (frames - s.jo)) :
    (FramesInPortConverter.next conv C server frames s).1 = 1 ∧
    (FramesInPortConverter.next conv C server frames s).2.sf = 0 ∧
    (FramesInPortConverter.next conv C server frames s).2.jo
      = s.jo + (C - s.sf) ∧
    (FramesInPortConverter.next conv C server frames s).2.valid = C := by
  have hjf : wsub frames s.jo = frames - s.jo := wsub_eq hb (by omega)
  have hmiss : wsub C s.sf = C - s.sf := wsub_eq ha (by omega)
  simp only [FramesInPortConverter.next, hjf, hmiss,
    wadd_eq (show s.sf + (frames - s.jo) < M32 by omega)]
  rw [if_neg (by omega), if_pos hready]
  refine ⟨rfl, rfl, wadd_eq (by omega), ?_⟩
  simp only [extendValid]
  rw [if_pos hv1]
  omega

/-- Not-ready step of the input adapter: with
`shadow_frames + (frames - jack_offset) < dst_frames`, `next` returns 0,
accumulates the remaining server frames and zeroes `jack_offset`; the ghost
valid prefix stays between the new `shadow_frames` and `dst_frames`. -/
theorem in_next_notready (conv : α → α) (server : Nat → α) (C frames : Nat)
    (s : InSt α) (ha : s.sf ≤ C) (hb : s.jo ≤ frames) (hM : C + frames < M32)
    (hv1 : s.sf ≤ s.valid) (hv2 : s.valid ≤ C)
    (hnr : s.sf + (frames - s.jo) < C) :
    (FramesInPortConverter.next conv C server frames s).1 = 0 ∧
    (FramesInPortConverter.next conv C server frames s).2.sf
      = s.sf + (frames - s.jo) ∧
    (FramesInPortConverter.next conv C server frames s).2.jo = 0 ∧
    (FramesInPortConverter.next conv C server frames s).2.sf
      ≤ (FramesInPortConverter.next conv C server frames s).2.valid ∧
    (FramesInPortConverter.next conv C server frames s).2.valid ≤ C := by
  have hjf : wsub frames s.jo = frames - s.jo := wsub_eq hb (by omega)
  simp only [FramesInPortConverter.next, hjf,
    wadd_eq (show s.sf + (frames - s.jo) < M32 by omega)]
  rw [if_neg (by omega), if_neg (by omega)]
  refine ⟨rfl, rfl, rfl, ?_, ?_⟩ <;>
    simp only [extendValid] <;> rw [if_pos hv1] <;> omega

/-- When every port's step returns the same non-negative result `r ≤ 1`,
the fold inside `JackBufferConverter::next` returns `r` and advances every
port. -/
theorem nextAll_const {σ : Type} (f : σ → Int × σ) (r : Int) (h0 : 0 ≤ r)
    (h1 : r ≤ 1) :
    ∀ l : List σ, (∀ p ∈ l, (f p).1 = r) → l ≠ [] →
      nextAll f l = (r, l.map (fun p => (f p).2)) := by
  intro l
  induction l with
  | nil => exact fun _ h => absurd rfl h
  | cons p ps ih =>
    intro hall _
    have hp := hall p (List.mem_cons_self p ps)
    by_cases hps : ps = []
    · subst hps
      simp only [nextAll, hp, List.map_cons, List.map_nil]
      rw [if_neg (by omega), if_neg (by omega)]
      rw [min_eq_left h1]
    · have hrec := ih (fun q hq => hall q (List.mem_cons_of_mem _ hq)) hps
      simp only [nextAll, hp, hrec, List.map_cons]
      rw [if_neg (by omega), if_neg (by omega)]
      rw [min_self]

/-- Main invariant of the `while` loop of `JackBufferConverter::converter`:
when the client callback always returns 0 and every input adapter enters the
callback in lockstep state `(shadow_frames = a ≤ dst_frames, jack_offset =
b ≤ frames)`, the loop terminates within the fuel, invokes the client
callback exactly `(a + (frames - b)) / dst_frames` times, leaves every input
adapter at `shadow_frames = (a + (frames - b)) % dst_frames` with
`jack_offset = 0`, records only events where the gating input result was 1,
the frame count passed was `dst_frames` and every input shadow held a full
valid client period at offset 0, and returns `-1` whenever the output list
is empty. -/
theorem convLoop_spec (cb : Nat → Int) (C frames : Nat)
    (hcb : ∀ n, cb n = 0) (hC : 0 < C) (hM : C + frames < M32) :
    ∀ (fuel a b : Nat) (ins : List (InPort α)) (outs : List (OutPort α)),
    ins ≠ [] →
    (∀ p ∈ ins, p.st.sf = a ∧ p.st.jo = b ∧ p.st.sf ≤ p.st.valid ∧
                p.st.valid ≤ C) →
    a ≤ C → b ≤ frames →
    (a + (frames - b)) / C + 1 ≤ fuel →
    ∃ res : ConvResult α,
      convLoop cb C frames fuel ins outs = some res ∧
      res.count = (a + (frames - b)) / C ∧
      res.ins ≠ [] ∧
      (∀ p ∈ res.ins, p.st.sf = (a + (frames - b)) % C ∧ p.st.jo = 0 ∧
                      p.st.sf ≤ p.st.valid ∧ p.st.valid ≤ C) ∧
      (∀ e ∈ res.events, e.ret = 1 ∧ e.nframes = C ∧
                         ∀ st ∈ e.states, st.valid = C) ∧
      (outs = [] → res.ret = -1) := by
  intro fuel
  induction fuel with
  | zero =>
    intro a b ins outs hne hall ha hb hfuel
    exact absurd hfuel (Nat.not_succ_le_zero _)
  | succ fuel ih =>
    intro a b ins outs hne hall ha hb hfuel
    by_cases hready : C ≤ a + (frames - b)
    · -- ready: every input advances, the callback fires, the loop continues
      have hstep : ∀ p ∈ ins, (inStep C frames p).1 = 1 := by
        intro p hp
        obtain ⟨h1, h2, h3, h4⟩ := hall p hp
        simp only [inStep]
        exact (in_next_ready p.from_jack p.server C frames p.st
          (by omega) (by omega) hM h3 h4 (by omega)).1
      have hN : JackBufferConverter.next (inStep C frames) ins
          = (1, ins.map (fun p => (inStep C frames p).2)) := by
        cases ins with
        | nil => exact absurd rfl hne
        | cons p ps =>
          simp only [JackBufferConverter.next, List.isEmpty_cons,
            Bool.false_eq_true, if_false]
          exact nextAll_const _ 1 (by omega) (by omega) _ hstep (by simp)
      have hstate : ∀ q ∈ ins.map (fun p => (inStep C frames p).2),
          q.st.sf = 0 ∧ q.st.jo = b + (C - a) ∧ q.st.sf ≤ q.st.valid ∧
          q.st.valid ≤ C := by
        intro q hq
        obtain ⟨p, hp, rfl⟩ := List.mem_map.mp hq
        obtain ⟨h1, h2, h3, h4⟩ := hall p hp
        have hr := in_next_ready p.from_jack p.server C frames p.st
          (by omega) (by omega) hM h3 h4 (by omega)
        simp only [inStep]
        rw [h1, h2] at hr
        exact ⟨hr.2.1, hr.2.2.1, by omega, by omega⟩
      have hAC : (a + (frames - b)) / C = (a + (frames - b) - C) / C + 1 := by
        have h2 : a + (frames - b) - C + C = a + (frames - b) := by omega
        have h := Nat.add_div_right (a + (frames - b) - C) hC
        rw [h2] at h
        omega
      have hACm : (a + (frames - b)) % C = (a + (frames - b) - C) % C := by
        have h2 : a + (frames - b) - C + C = a + (frames - b) := by omega
        have h := Nat.add_mod_right (a + (frames - b) - C) C
        rw [h2] at h
        omega
      have hsub : frames - (b + (C - a)) = a + (frames - b) - C := by omega
      obtain ⟨res, hres, hcount, hne', hall', hev', hout'⟩ :=
        ih 0 (b + (C - a)) (ins.map (fun p => (inStep C frames p).2))
          (outs.map (fun p =>
            { p with st := FramesOutPortConverter.update_client_frames
                             C p.st }))
          (by simpa using hne)
          (by simpa using hstate)
          (by omega) (by omega)
          (by rw [Nat.zero_add, hsub]; omega)
      refine ⟨⟨res.ret, res.ins, res.outs, res.count + 1,
        ⟨1, C, (ins.map (fun p => (inStep C frames p).2)).map
          (fun p => p.st)⟩ :: res.events⟩, ?_, ?_, ?_, ?_, ?_, ?_⟩
      · simp only [convLoop, hN]
        rw [if_pos (by norm_num)]
        rw [hcb C]
        rw [if_neg (by norm_num)]
        rw [hres]
      · simp only []
        rw [hcount, Nat.zero_add, hsub, hAC]
      · exact hne'
      · intro p hp
        have := hall' p hp
        rw [Nat.zero_add, hsub] at this
        rw [hACm]
        exact this
      · intro e he
        rcases List.mem_cons.mp he with he | he
        · subst he
          refine ⟨rfl, rfl, ?_⟩
          intro st hst
          obtain ⟨q, hq, rfl⟩ := List.mem_map.mp hst
          obtain ⟨p, hp, rfl⟩ := List.mem_map.mp hq
          obtain ⟨h1, h2, h3, h4⟩ := hall p hp
          have hr := in_next_ready p.from_jack p.server C frames p.st
            (by omega) (by omega) hM h3 h4 (by omega)
          simpa only [inStep] using hr.2.2.2
        · exact hev' e he
      · intro ho
        subst ho
        exact hout' rfl
    · -- not ready: every input returns 0, the loop exits, outputs drain
      have hstep : ∀ p ∈ ins, (inStep C frames p).1 = 0 := by
        intro p hp
        obtain ⟨h1, h2, h3, h4⟩ := hall p hp
        simp only [inStep]
        exact (in_next_notready p.from_jack p.server C frames p.st
          (by omega) (by omega) hM h3 h4 (by omega)).1
      have hN : JackBufferConverter.next (inStep C frames) ins
          = (0, ins.map (fun p => (inStep C frames p).2)) := by
        cases ins with
        | nil => exact absurd rfl hne
        | cons p ps =>
          simp only [JackBufferConverter.next, List.isEmpty_cons,
            Bool.false_eq_true, if_false]
          exact nextAll_const _ 0 (by omega) (by omega) _ hstep (by simp)
      refine ⟨⟨if (JackBufferConverter.next (outStep C frames) outs).1 < 0
          then (JackBufferConverter.next (outStep C frames) outs).1 else 0,
        ins.map (fun p => (inStep C frames p).2),
        (JackBufferConverter.next (outStep C frames) outs).2, 0, []⟩,
        ?_, ?_, ?_, ?_, ?_, ?_⟩
      · simp only [convLoop, hN]
        rw [if_neg (by norm_num)]
      · simp only []
        rw [Nat.div_eq_of_lt (by omega)]
      · simpa using hne
      · intro p hp
        obtain ⟨q, hq, rfl⟩ := List.mem_map.mp hp
        obtain ⟨h1, h2, h3, h4⟩ := hall q hq
        have hr := in_next_notready q.from_jack q.server C frames q.st
          (by omega) (by omega) hM h3 h4 (by omega)
        simp only [inStep]
        rw [Nat.mod_eq_of_lt (by omega)]
        refine ⟨by rw [hr.2.1, h1, h2], hr.2.2.1, hr.2.2.2.1, hr.2.2.2.2⟩
      · intro e he
        exact absurd he (List.not_mem_nil e)
      · intro ho
        subst ho
        simp [JackBufferConverter.next]

/-- Splitting division of an accumulated sum: the quotients extracted so far
plus the quotients of the carry-plus-new-input equal the quotient of the
total. -/
theorem div_accum (C x y : Nat) (hC : 0 < C) :
    x / C + (x % C + y) / C = (x + y) / C := by
  have h1 : x + y = C * (x / C) + (x % C + y) := by
    have := Nat.div_add_mod x C
    omega
  rw [h1, Nat.mul_add_div hC]

/-- `JackBufferConverter.converter` (fuel `frames + 2`) satisfies the loop
invariant: the fuel bound always holds. -/
theorem converter_spec (cb : Nat → Int) (C frames : Nat)
    (hcb : ∀ n, cb n = 0) (hC : 0 < C) (hM : C + frames < M32)
    (a b : Nat) (ins : List (InPort α)) (outs : List (OutPort α))
    (hne : ins ≠ [])
    (hall : ∀ p ∈ ins, p.st.sf = a ∧ p.st.jo = b ∧ p.st.sf ≤ p.st.valid ∧
                       p.st.valid ≤ C)
    (ha : a ≤ C) (hb : b ≤ frames) :
    ∃ res : ConvResult α,
      JackBufferConverter.converter cb C frames ins outs = some res ∧
      res.count = (a + (frames - b)) / C ∧
      res.ins ≠ [] ∧
      (∀ p ∈ res.ins, p.st.sf = (a + (frames - b)) % C ∧ p.st.jo = 0 ∧
                      p.st.sf ≤ p.st.valid ∧ p.st.valid ≤ C) ∧
      (∀ e ∈ res.events, e.ret = 1 ∧ e.nframes = C ∧
                         ∀ st ∈ e.states, st.valid = C) ∧
      (outs = [] → res.ret = -1) := by
  have hfuel : (a + (frames - b)) / C + 1 ≤ frames + 2 := by
    have h1 : a + (frames - b) ≤ frames + C := by omega
    have h2 : (a + (frames - b)) / C ≤ (frames + C) / C :=
      Nat.div_le_div_right h1
    have h3 := Nat.add_div_right frames hC
    have h4 := Nat.div_le_self frames C
    omega
  exact convLoop_spec cb C frames hcb hC hM (frames + 2) a b ins outs
    hne hall ha hb hfuel

/-- Induction across server ticks: starting from lockstep input state
`(shadow_frames = a < dst_frames, jack_offset = 0)`, `T` ticks of `frames`
frames each invoke the client callback `(a + T * frames) / dst_frames`
times in total. -/
theorem runTicks_spec (cb : Nat → Int) (C frames : Nat)
    (hcb : ∀ n, cb n = 0) (hC : 0 < C) (hM : C + frames < M32) :
    ∀ (T a : Nat) (ins : List (InPort α)) (outs : List (OutPort α)),
    ins ≠ [] →
    (∀ p ∈ ins, p.st.sf = a ∧ p.st.jo = 0 ∧ p.st.sf ≤ p.st.valid ∧
                p.st.valid ≤ C) →
    a < C →
    ∃ rr : RunResult α, runTicks cb C frames T ins outs = some rr ∧
      rr.count = (a + T * frames) / C := by
  intro T
  induction T with
  | zero =>
    intro a ins outs hne hall ha
    refine ⟨⟨ins, outs, 0⟩, rfl, ?_⟩
    rw [Nat.zero_mul, Nat.add_zero, Nat.div_eq_of_lt ha]
  | succ T ihT =>
    intro a ins outs hne hall ha
    obtain ⟨res, hres, hcount, hne', hall', hev', hout'⟩ :=
      converter_spec cb C frames hcb hC hM a 0 ins outs hne hall
        (Nat.le_of_lt ha) (Nat.zero_le _)
    obtain ⟨rr, hrr, hrrc⟩ :=
      ihT ((a + (frames - 0)) % C) res.ins res.outs hne'
        (fun p hp => hall' p hp) (Nat.mod_lt _ hC)
    refine ⟨⟨rr.ins, rr.outs, res.count + rr.count⟩, ?_, ?_⟩
    · simp only [runTicks, hres, hrr]
    · show res.count + rr.count = (a + (T + 1) * frames) / C
      rw [hcount, hrrc]
      have hacc := div_accum C (a + (frames - 0)) (T * frames) hC
      have h1 : a + (frames - 0) + T * frames = a + (T + 1) * frames := by
        rw [Nat.succ_mul]
        omega
      rw [h1] at hacc
      omega

/-- The silence prefill never exceeds the client period. -/
theorem calculate_silence_prefill_le (C S : Nat) (hM : C < M32) :
    calculate_silence_prefill C S ≤ C := by
  unfold calculate_silence_prefill
  split
  · split <;> omega
  · split
    · split
      · rename_i hlt _
        rw [wsub_eq (by omega) hM]
        omega
      · omega
    · omega

/-- C1: over `T ≥ 1` consecutive server process callbacks of `S` frames
each, on an aggregator with client period `C = dst_frames`, at least one
input and one output adapter, all server buffers non-null (buffers are total
functions here) and the client callback always returning 0, the client
callback is invoked exactly `(T * S + silence_prefill) / C` times. -/
theorem C1_client_callback_count (cb : Nat → Int) (C S T : Nat)
    (ins : List (InPort α)) (outs : List (OutPort α))
    (hcb : ∀ n, cb n = 0) (hC : 0 < C) (hS : 0 < S) (hM : C + S < M32)
    (hT : 1 ≤ T) (hne : ins ≠ []) (hone : outs ≠ [])
    (hinit : ∀ p ∈ ins, p.st.sf = calculate_silence_prefill C S ∧
             p.st.jo = 0 ∧ p.st.valid = calculate_silence_prefill C S) :
    ∃ rr : RunResult α, runTicks cb C S T ins outs = some rr ∧
      rr.count = (T * S + calculate_silence_prefill C S) / C := by
  have hP : calculate_silence_prefill C S ≤ C :=
    calculate_silence_prefill_le C S (by omega)
  rcases T with _ | T
  · omega
  · obtain ⟨res, hres, hcount, hne', hall', hev', hout'⟩ :=
      converter_spec cb C S hcb hC hM (calculate_silence_prefill C S) 0
        ins outs hne
        (fun p hp => ⟨(hinit p hp).1, (hinit p hp).2.1,
          by rw [(hinit p hp).1, (hinit p hp).2.2],
          by rw [(hinit p hp).2.2]; exact hP⟩)
        hP (Nat.zero_le _)
    obtain ⟨rr, hrr, hrrc⟩ :=
      runTicks_spec cb C S hcb hC hM T
        ((calculate_silence_prefill C S + (S - 0)) % C) res.ins res.outs
        hne' (fun p hp => hall' p hp) (Nat.mod_lt _ hC)
    refine ⟨⟨rr.ins, rr.outs, res.count + rr.count⟩, ?_, ?_⟩
    · simp only [runTicks, hres, hrr]
    · show res.count + rr.count = ((T + 1) * S + calculate_silence_prefill C S) / C
      rw [hcount, hrrc]
      have hacc := div_accum C (calculate_silence_prefill C S + (S - 0))
        (T * S) hC
      have h1 : calculate_silence_prefill C S + (S - 0) + T * S
          = (T + 1) * S + calculate_silence_prefill C S := by
        rw [Nat.succ_mul]
        omega
      rw [h1] at hacc
      omega

/-- Witness for C1: spec scenario 5 (`S = 100`, `C = 64`, prefill 64):
over 16 ticks, one input and one output adapter, the callback count is
`(16 * 100 + 64) / 64 = 26`. -/
theorem C1_client_callback_count_witness :
    calculate_silence_prefill 64 100 = 64 ∧
    (16 * 100 + calculate_silence_prefill 64 100) / 64 = 26 ∧
    ∃ rr : RunResult Int,
      runTicks (fun _ => 0) 64 100 16
        [⟨fun x => x, fun _ => 0, ⟨64, 0, fun _ => 0, 64⟩⟩]
        [⟨fun x => x, fun _ => 0, ⟨0, 0, 0, fun _ => 0⟩⟩] = some rr ∧
      rr.count = (16 * 100 + calculate_silence_prefill 64 100) / 64 := by
  refine ⟨by decide, by decide, ?_⟩
  exact C1_client_callback_count (fun _ => 0) 64 100 16 _ _
    (fun _ => rfl) (by decide) (by decide) (by decide) (by decide)
    (List.cons_ne_nil _ _) (List.cons_ne_nil _ _)
    (by
      intro p hp
      rw [List.mem_singleton] at hp
      subst hp
      exact ⟨by decide, by decide, by decide⟩)

/-- C5: in every server process callback (entered with the input adapters in
lockstep, shadow counters within a client period), every client-callback
invocation passes exactly `dst_frames` as its frame count and happens only
when the gating aggregate input `next` result was `Ready` (1); at that
moment every input adapter's shadow buffer holds exactly `dst_frames` valid
frames starting at shadow offset 0 (`valid = dst_frames`; its `get` hands
the client the shadow base at offset 0). -/
theorem C5_callback_conditions (cb : Nat → Int) (C frames a b : Nat)
    (ins : List (InPort α)) (outs : List (OutPort α))
    (hcb : ∀ n, cb n = 0) (hC : 0 < C) (hM : C + frames < M32)
    (hne : ins ≠ [])
    (hall : ∀ p ∈ ins, p.st.sf = a ∧ p.st.jo = b ∧ p.st.sf ≤ p.st.valid ∧
                       p.st.valid ≤ C)
    (ha : a ≤ C) (hb : b ≤ frames) :
    ∃ res : ConvResult α,
      JackBufferConverter.converter cb C frames ins outs = some res ∧
      ∀ e ∈ res.events, e.nframes = C ∧ e.ret = 1 ∧
        ∀ st ∈ e.states, st.valid = C := by
  obtain ⟨res, h1, _, _, _, hev, _⟩ :=
    converter_spec cb C frames hcb hC hM a b ins outs hne hall ha hb
  exact ⟨res, h1, fun e he =>
    ⟨(hev e he).2.1, (hev e he).1, (hev e he).2.2⟩⟩

/-- Witness for C5: one tick with `C = 64`, `S = 100`, prefill 64: the run
produces events and each satisfies the conditions (checked through the
theorem at this concrete configuration). -/
theorem C5_callback_conditions_witness :
    ∃ res : ConvResult Int,
      JackBufferConverter.converter (fun _ => 0) 64 100
        [⟨fun x => x, fun _ => 0, ⟨64, 0, fun _ => 0, 64⟩⟩]
        [⟨fun x => x, fun _ => 0, ⟨0, 0, 0, fun _ => 0⟩⟩] = some res ∧
      ∀ e ∈ res.events, e.nframes = 64 ∧ e.ret = 1 ∧
        ∀ st ∈ e.states, st.valid = 64 :=
  C5_callback_conditions (fun _ => 0) 64 100 64 0 _ _
    (fun _ => rfl) (by decide) (by decide) (List.cons_ne_nil _ _)
    (by
      intro p hp
      rw [List.mem_singleton] at hp
      subst hp
      exact ⟨rfl, rfl, by decide, by decide⟩)
    (by decide) (by decide)

/-- C10: a server process callback on an aggregator whose output-adapter
list is empty returns `-1`, even with a non-empty input list, successful
input advances and a client callback that always returns 0. -/
theorem C10_empty_output_list (cb : Nat → Int) (C frames a b : Nat)
    (ins : List (InPort α))
    (hcb : ∀ n, cb n = 0) (hC : 0 < C) (hM : C + frames < M32)
    (hne : ins ≠ [])
    (hall : ∀ p ∈ ins, p.st.sf = a ∧ p.st.jo = b ∧ p.st.sf ≤ p.st.valid ∧
                       p.st.valid ≤ C)
    (ha : a ≤ C) (hb : b ≤ frames) :
    ∃ res : ConvResult α,
      JackBufferConverter.converter cb C frames ins
        ([] : List (OutPort α)) = some res ∧
      res.ret = -1 := by
  obtain ⟨res, h1, _, _, _, _, hout⟩ :=
    converter_spec cb C frames hcb hC hM a b ins [] hne hall ha hb
  exact ⟨res, h1, hout rfl⟩

/-- Witness for C10: one tick, `C = 64`, `S = 100`, a single input adapter
with prefill 64 and no output adapter returns `-1`. -/
theorem C10_empty_output_list_witness :
    ∃ res : ConvResult Int,
      JackBufferConverter.converter (fun _ => 0) 64 100
        [⟨fun x => x, fun _ => 0, ⟨64, 0, fun _ => 0, 64⟩⟩] [] = some res ∧
      res.ret = -1 :=
  C10_empty_output_list (fun _ => 0) 64 100 64 0 _
    (fun _ => rfl) (by decide) (by decide) (List.cons_ne_nil _ _)
    (by
      intro p hp
      rw [List.mem_singleton] at hp
      subst hp
      exact ⟨rfl, rfl, by decide, by decide⟩)
    (by decide) (by decide)
